import Mathlib

/-!
Verification development for the Resume.BUILDER repository: two near-identical
document-editing web apps (PDF resumes and OCR-processed images).  The
repository's frontend logic (`script.js` for the PDF app, the unnamed image-app
frontend) is embedded directly from the source.  The backend pipeline
(extractor, style resolver, regenerator, preview aggregator, sessions) is not
present in the repository sources; those components are modelled from the
specification, as marked on each definition.
-/

namespace RB

/-- Axis-aligned rectangle in document coordinates (page points for PDF,
pixels for images). -/
structure BoundingBox where
  x : Int
  y : Int
  width : Int
  height : Int
deriving Repr, DecidableEq

/-- Estimated font description attached to an extracted field. -/
structure StyleHint where
  family : String
  size : Nat
  bold : Bool
  italic : Bool
deriving Repr, DecidableEq

/-- A renderable style produced by the Style Resolver. -/
structure ResolvedStyle where
  family : String
  size : Nat
  bold : Bool
  italic : Bool
deriving Repr, DecidableEq

/-- One positioned, editable unit of text (spec §3 TextField). -/
structure TextField where
  id : Nat
  label : String
  value : String
  boundingBox : BoundingBox
  styleHint : StyleHint
  confidence : Option Nat
deriving Repr, DecidableEq

/-- An embedded raster image with its placement box (spec §3 ImageAsset). -/
structure ImageAsset where
  format : String
  data : String
  box : BoundingBox
deriving Repr, DecidableEq

/-- Ordered fields plus image assets for one document (spec §3 LayoutModel). -/
structure LayoutModel where
  fields : List TextField
  images : List ImageAsset
deriving Repr, DecidableEq

/-- Server-side association of one LayoutModel with its source document
(spec §3 Session). -/
structure Session where
  layout : LayoutModel
  sourceFormat : String
deriving Repr, DecidableEq

/-- Advisory warning categories (spec §3 Warning). -/
inductive WarningCategory where
  | fontSubstitution
  | lowConfidence
  | emptyResult
deriving Repr, DecidableEq

/-- Advisory warning; never blocks regeneration (spec §3 Warning). -/
structure Warning where
  fieldId : Option Nat
  message : String
  category : WarningCategory
deriving Repr, DecidableEq

/-! ## Style Resolver (Font Mapper)

Modelled from the spec: the repository's `backend/utils/font_mapper.py` is not
under src/; §4.2 describes an exact-match table with alias normalization, a
serif/sans-serif/monospace classification fallback with a default family per
class, and a pass-through size subject to a minimum-legible-size clamp. -/

/-- Font classes used by the fallback classification heuristic. -/
inductive FontClass where
  | serif
  | sans
  | mono
deriving Repr, DecidableEq

/-- Substring test via `splitOn`: true when `pat` occurs inside `s`. -/
def hasSub (s pat : String) : Bool :=
  (s.splitOn pat).length > 1

/-- Modelled from the spec: fixed table of renderable font family names. -/
def knownFamilies : List String :=
  ["helvetica", "times-roman", "courier"]

/-- Modelled from the spec: common alias normalization table
(e.g. "Arial" maps to the Helvetica class). -/
def fontAliases : List (String × String) :=
  [("arial", "helvetica"),
   ("helvetica neue", "helvetica"),
   ("calibri", "helvetica"),
   ("verdana", "helvetica"),
   ("tahoma", "helvetica"),
   ("times", "times-roman"),
   ("times new roman", "times-roman"),
   ("georgia", "times-roman"),
   ("cambria", "times-roman"),
   ("garamond", "times-roman"),
   ("courier new", "courier"),
   ("consolas", "courier"),
   ("menlo", "courier")]

/-- Modelled from the spec: default renderable family for each font class. -/
def defaultFamily : FontClass → String
  | FontClass.serif => "times-roman"
  | FontClass.sans => "helvetica"
  | FontClass.mono => "courier"

/-- Modelled from the spec: classification heuristic on the requested
family name (serif vs sans-serif vs monospace from known lineage). -/
def classifyFamily (n : String) : FontClass :=
  if hasSub n "mono" || hasSub n "courier" || hasSub n "consol" then
    FontClass.mono
  else if hasSub n "sans" then
    FontClass.sans
  else if hasSub n "serif" || hasSub n "times" || hasSub n "georgia" ||
      hasSub n "garamond" || hasSub n "cambria" || hasSub n "book" then
    FontClass.serif
  else
    FontClass.sans

/-- Case-insensitive exact match against the known-family table,
with alias normalization. -/
def lookupExact (n : String) : Option String :=
  if knownFamilies.contains n then some n else fontAliases.lookup n

/-- Modelled from the spec: minimum legible size; smaller sizes are clamped
(treated as cosmetic, not warned). -/
def minFontSize : Nat := 6

/-- Size passes through unless below the renderer's minimum. -/
def clampSize (sz : Nat) : Nat := max sz minFontSize

/-- Modelled from the spec (§4.2): `resolve(styleHint) -> (ResolvedStyle,
substituted)`.  Exact/alias table hit keeps `substituted = false`; otherwise
the class-default family is selected and `substituted = true`. -/
def resolve (h : StyleHint) : ResolvedStyle × Bool :=
  let n := h.family.toLower
  match lookupExact n with
  | some fam =>
      ({ family := fam, size := clampSize h.size,
         bold := h.bold, italic := h.italic }, false)
  | none =>
      ({ family := defaultFamily (classifyFamily n), size := clampSize h.size,
         bold := h.bold, italic := h.italic }, true)

/-- Every alias maps into the known-family table. -/
lemma fontAliases_snd_known : ∀ p ∈ fontAliases, p.2 ∈ knownFamilies := by
  decide

/-- Every class default is a known family. -/
lemma defaultFamily_known (c : FontClass) : defaultFamily c ∈ knownFamilies := by
  cases c <;> decide

/-- A successful table lookup returns a known family. -/
lemma lookupExact_known {n fam : String} (h : lookupExact n = some fam) :
    fam ∈ knownFamilies := by
  unfold lookupExact at h
  split at h
  · rename_i hc
    cases h
    exact List.elem_iff.mp hc
  · rcases List.lookup_eq_some_iff.mp h with ⟨l₁, l₂, heq, -⟩
    have hmem : (n, fam) ∈ fontAliases := by
      rw [heq]; exact List.mem_append_right _ (List.mem_cons_self _ _)
    exact fontAliases_snd_known _ hmem

/-! ## OCR extraction

Modelled from the spec: the repository's `backend/image_ocr.py` is not under
src/; §4.1 describes the OCR strategy: recognition yields word/line boxes with
text and per-box confidence in [0,100]; adjacent boxes on the same visual line
within a small vertical tolerance are merged into one TextField; a field with
confidence below 70 generates a `lowConfidence` Warning but is still included;
zero fields yields an `emptyResult` Warning, not an error. -/

/-- One raw recognition box as returned by the OCR engine: text, pixel
position/extent, and confidence.  Pixel coordinates are natural numbers. -/
structure OcrBox where
  text : String
  x : Nat
  y : Nat
  width : Nat
  height : Nat
  conf : Nat
deriving Repr, DecidableEq

/-- Absolute difference of two naturals. -/
def natDist (a b : Nat) : Nat := max a b - min a b

/-- Whether a recognized string is blank (empty or all spaces), the
condition under which the OCR strategy drops a recognition box. -/
def isBlank (s : String) : Bool := s.data.all (fun ch => ch == ' ')

/-- Modelled from the spec: group consecutive recognition boxes (already in
reading order) into visual lines, two neighbours sharing a line when their
vertical positions differ by at most `tol`.  Each group is a nonempty
head-and-tail pair. -/
def groupLines (tol : Nat) : List OcrBox → List (OcrBox × List OcrBox)
  | [] => []
  | b :: rest =>
    match groupLines tol rest with
    | [] => [(b, [])]
    | (c, g) :: gs =>
      if natDist b.y c.y ≤ tol then (b, c :: g) :: gs
      else (b, []) :: (c, g) :: gs

/-- Modelled from the spec: merge one visual line of boxes into a single box:
space-joined text, bounding union of the rectangles, minimum confidence. -/
def mergeGroup (h : OcrBox) (t : List OcrBox) : OcrBox :=
  let left := t.foldl (fun a b => min a b.x) h.x
  let top := t.foldl (fun a b => min a b.y) h.y
  let right := t.foldl (fun a b => max a (b.x + b.width)) (h.x + h.width)
  let bottom := t.foldl (fun a b => max a (b.y + b.height)) (h.y + h.height)
  { text := t.foldl (fun a b => a ++ " " ++ b.text) h.text,
    x := left, y := top,
    width := right - left, height := bottom - top,
    conf := t.foldl (fun a b => min a b.conf) h.conf }

/-- Build the TextField for the `i`-th merged line: sequential id, positional
label, OCR text as initial value, estimated style, OCR confidence. -/
def mkField (i : Nat) (m : OcrBox) : TextField :=
  { id := i,
    label := "Line " ++ toString (i + 1),
    value := m.text,
    boundingBox := { x := (m.x : Int), y := (m.y : Int),
                     width := (m.width : Int), height := (m.height : Int) },
    styleHint := { family := "Arial", size := m.height,
                   bold := false, italic := false },
    confidence := some m.conf }

/-- Assign sequential ids starting at `i` to a list of merged boxes. -/
def assignIds (i : Nat) : List OcrBox → List TextField
  | [] => []
  | m :: ms => mkField i m :: assignIds (i + 1) ms

/-- Modelled from the spec: confidence threshold below which extraction emits
a `lowConfidence` Warning (policy default 70; the image frontend uses the same
threshold for its badge). -/
def confThreshold : Nat := 70

/-- Low-confidence warning for one field. -/
def lowConfWarning (f : TextField) : Warning :=
  { fieldId := some f.id,
    message := "Low OCR confidence for " ++ f.label,
    category := WarningCategory.lowConfidence }

/-- Warning emitted when extraction finds no text at all. -/
def emptyResultWarning : Warning :=
  { fieldId := none,
    message := "No text was detected in the image",
    category := WarningCategory.emptyResult }

/-- Per-field extraction warnings: one `lowConfidence` Warning for each field
whose confidence is below the threshold. -/
def extractionWarnings (fields : List TextField) : List Warning :=
  fields.filterMap fun f =>
    match f.confidence with
    | some c => if c < confThreshold then some (lowConfWarning f) else none
    | none => none

/-- Modelled from the spec (§4.1 OCR strategy): drop boxes whose recognized
text is blank, merge per visual line, assign sequential ids, and aggregate
warnings; zero fields adds a single `emptyResult` Warning. -/
def extractOcr (tol : Nat) (boxes : List OcrBox) : LayoutModel × List Warning :=
  let ws := boxes.filter (fun b => !(isBlank b.text))
  let merged := (groupLines tol ws).map (fun p => mergeGroup p.1 p.2)
  let fields := assignIds 0 merged
  let warns := extractionWarnings fields ++
    (if fields.isEmpty then [emptyResultWarning] else [])
  ({ fields := fields, images := [] }, warns)

/-- Input decoding failure (spec §7 DecodeError). -/
inductive DecodeError where
  | decodeError
deriving Repr, DecidableEq

/-- Modelled from the spec: the full extract contract.  `none` stands for
source bytes that cannot be decoded as the declared format (DecodeError);
decodable input always extracts successfully. -/
def extractDoc (tol : Nat) : Option (List OcrBox) →
    Except DecodeError (LayoutModel × List Warning)
  | none => Except.error DecodeError.decodeError
  | some boxes => Except.ok (extractOcr tol boxes)

/-! ## Warning/Preview Aggregator

Modelled from the spec (§4.4): `preview(layout, editedFields) -> [Warning]`
is pure and read-only; it recomputes font-substitution warnings by resolving
every edited field's styleHint, and re-surfaces low-confidence warnings only
for fields whose value still equals the originally extracted text (the session
layout keeps the original values; `editedFields` carries the user's edits). -/

/-- Font-substitution warning for one field. -/
def fontSubWarning (e : TextField) : Warning :=
  { fieldId := some e.id,
    message := "Font " ++ e.styleHint.family ++ " substituted",
    category := WarningCategory.fontSubstitution }

/-- Modelled from the spec: the preview warning computation. -/
def preview (layout : LayoutModel) (edited : List TextField) : List Warning :=
  let fontW := edited.filterMap fun e =>
    if (resolve e.styleHint).2 then some (fontSubWarning e) else none
  let lowW := layout.fields.filterMap fun f =>
    match f.confidence with
    | some c =>
      if c < confThreshold then
        match edited.find? (fun e => e.id == f.id) with
        | some e => if e.value == f.value then some (lowConfWarning f) else none
        | none => none
      else none
    | none => none
  fontW ++ lowW

/-- The preview operation at session level: computes warnings and leaves the
session untouched (spec §4.4: no mutation of session state). -/
def previewOp (s : Session) (edited : List TextField) :
    List Warning × Session :=
  (preview s.layout edited, s)

/-! ## Regenerator

Modelled from the spec (§4.3): the repository's `backend/pdf_generator.py` /
`backend/image_regenerator.py` are not under src/.  Regenerate validates the
edited field set against the layout, then erases each field's box and draws
the edited value with the resolved style at the box origin, shrinking the font
in steps down to a floor when the text overflows. -/

/-- Field-set / format / render failures of regenerate (spec §7). -/
inductive RegenError where
  | invalidFieldSet
  | unsupportedFormat
  | renderError
deriving Repr, DecidableEq

/-- Modelled from the spec: supported target output formats. -/
def supportedTargets : List String :=
  ["pdf", "docx", "png", "jpeg", "bmp", "tiff"]

/-- Modelled from the spec (§4.3 bullet 1): `editedFields` length and id set
must match the LayoutModel's fields exactly. -/
def validFieldSet (layout : LayoutModel) (edited : List TextField) : Bool :=
  (edited.length == layout.fields.length) &&
  layout.fields.all (fun f => edited.any (fun e => e.id == f.id)) &&
  edited.all (fun e => layout.fields.any (fun f => f.id == e.id))

/-- The spec-level statement that an edited field array corresponds exactly to
the layout: same length, same set of ids. -/
def FieldSetMatches (layout : LayoutModel) (edited : List TextField) : Prop :=
  edited.length = layout.fields.length ∧
  ∀ i : Nat, i ∈ layout.fields.map TextField.id ↔
    i ∈ edited.map TextField.id

/-- One piece of text placed on the output canvas. -/
structure PlacedText where
  text : String
  x : Int
  y : Int
  style : ResolvedStyle
deriving Repr, DecidableEq

/-- Crude width estimate used by the shrink-to-fit policy. -/
def approxTextWidth (t : String) (size : Nat) : Nat :=
  t.length * size * 3 / 5

/-- Modelled from the spec (§4.3 bullet 3): shrink the font size in unit steps
until the text fits the box width, down to the minimum floor; at the floor the
text is allowed to overflow horizontally. -/
def fitFontSize (t : String) (boxWidth : Nat) : Nat → Nat
  | 0 => minFontSize
  | n + 1 =>
    if n + 1 ≤ minFontSize then minFontSize
    else if approxTextWidth t (n + 1) ≤ boxWidth then n + 1
    else fitFontSize t boxWidth n

/-- Render one field: erase its box and draw `v` with the resolved style,
left-anchored at the box origin. -/
def renderField (f : TextField) (v : String) : PlacedText :=
  let rs := (resolve f.styleHint).1
  let sz := fitFontSize v f.boundingBox.width.toNat rs.size
  { text := v, x := f.boundingBox.x, y := f.boundingBox.y,
    style := { rs with size := sz } }

/-- The regenerated document: target format tag, placed text runs in layout
order, and the (possibly replaced) image assets. -/
structure OutputDocument where
  format : String
  placed : List PlacedText
  images : List ImageAsset
deriving Repr, DecidableEq

/-- The edited value for a layout field: the matching edited field's value. -/
def valueFor (edited : List TextField) (f : TextField) : String :=
  match edited.find? (fun e => e.id == f.id) with
  | some e => e.value
  | none => f.value

/-- Modelled from the spec: draw every field in stored order with its edited
value; image assets are carried over. -/
def render (layout : LayoutModel) (edited : List TextField)
    (fmt : String) : OutputDocument :=
  { format := fmt,
    placed := layout.fields.map (fun f => renderField f (valueFor edited f)),
    images := layout.images }

/-- Modelled from the spec (§4.3, §6): the regenerate entry point.  Field-set
validation first, then target-format validation; the session is never
mutated. -/
def regenerate (s : Session) (edited : List TextField) (fmt : String) :
    Except RegenError OutputDocument × Session :=
  if validFieldSet s.layout edited then
    if supportedTargets.contains fmt then
      (Except.ok (render s.layout edited fmt), s)
    else (Except.error RegenError.unsupportedFormat, s)
  else (Except.error RegenError.invalidFieldSet, s)

/-- The text content of an output, field by field in order. -/
def outputText (o : OutputDocument) : List String :=
  o.placed.map PlacedText.text

/-- The geometric placement of an output: anchor point and font size of each
run, in order. -/
def outputPlacement (o : OutputDocument) : List (Int × Int × Nat) :=
  o.placed.map (fun p => (p.x, p.y, p.style.size))

/-! ## Session operations and invariants -/

/-- Update the value of the field at position `i`, as the edit form's input
handler does (`currentFields[index].value = e.target.value`). -/
def setFieldValue : List TextField → Nat → String → List TextField
  | [], _, _ => []
  | f :: fs, 0, v => { f with value := v } :: fs
  | f :: fs, i + 1, v => f :: setFieldValue fs i v

/-- The operations a client may run against a session's layout after
extraction. -/
inductive SessionOp where
  | edit (i : Nat) (v : String)
  | runPreview (edited : List TextField)
  | runRegenerate (edited : List TextField) (fmt : String)
deriving Repr

/-- Effect of one operation on the session's layout: edits update one field's
value; preview and regenerate read but never write the layout. -/
def applyOp (m : LayoutModel) : SessionOp → LayoutModel
  | SessionOp.edit i v => { m with fields := setFieldValue m.fields i v }
  | SessionOp.runPreview _ => m
  | SessionOp.runRegenerate _ _ => m

/-- The per-field data invariant (spec §3): box dimensions non-negative and
confidence, when present, in [0,100]. -/
def fieldInv (f : TextField) : Prop :=
  0 ≤ f.boundingBox.width ∧ 0 ≤ f.boundingBox.height ∧
  ∀ c ∈ f.confidence, c ≤ 100

/-- The layout invariant: every field satisfies `fieldInv` and ids are unique
within the field set. -/
def modelInv (m : LayoutModel) : Prop :=
  (∀ f ∈ m.fields, fieldInv f) ∧ (m.fields.map TextField.id).Nodup

/-! ## Frontend embedding

These definitions are translated from the repository's frontend sources:
`script.js` (PDF app) and the unnamed image-app frontend.  DOM effects are
modelled as fields of an explicit client state; the network is modelled by a
request log plus an explicit server response parameter. -/

/-- Toast notification kinds used by `showToast`. -/
inductive ToastType where
  | success
  | error
  | warning
deriving Repr, DecidableEq

/-- The visible section of the single-page app (`showSection`). -/
inductive UiSection where
  | upload
  | edit
  | preview
deriving Repr, DecidableEq

/-- Data about a file as seen by the upload handlers: `file.size` and
`file.type`. -/
structure FileInfo where
  size : Nat
  mime : String
deriving Repr, DecidableEq

/-- The parsed payload the server returns on upload (`data.data`). -/
structure ParsedData where
  fields : List TextField
  images : List ImageAsset
deriving Repr, DecidableEq

/-- One rendered form control produced by `generateEditForm`: label text, the
low-confidence badge (image app only), multiline switch, and the input's
initial value.  The input's element id is the field's id. -/
structure FormEntry where
  entryId : Nat
  labelText : String
  lowConfBadge : Bool
  multiline : Bool
  inputValue : String
deriving Repr, DecidableEq

/-- The frontend's global state (`script.js` lines 9-24): session id, parsed
data, working field/image arrays, the file input, the generated form, the
active section, plus observable effects (toasts shown, network requests
sent). -/
structure ClientState where
  sessionId : Option String
  parsedData : Option ParsedData
  currentFields : List TextField
  currentImages : List ImageAsset
  fileInputValue : String
  editFormEntries : List FormEntry
  activeSection : UiSection
  warningsShown : List String
  toasts : List (String × ToastType)
  requests : List String
deriving Repr, DecidableEq

/-- `showToast(message, type)`: appends one toast notification. -/
def pushToast (st : ClientState) (msg : String) (ty : ToastType) :
    ClientState :=
  { st with toasts := st.toasts ++ [(msg, ty)] }

/-- `generateEditForm` of the image app: one control per extracted field, a
low-confidence badge when `field.confidence && field.confidence < 70` (the
JavaScript conjunction is false when confidence is absent or zero), a textarea
when the value exceeds 100 characters. -/
def generateEditFormEntries (fields : List TextField) : List FormEntry :=
  fields.map fun f =>
    { entryId := f.id,
      labelText := f.label,
      lowConfBadge :=
        (match f.confidence with
         | some c => decide (c ≠ 0) && decide (c < 70)
         | none => false),
      multiline := f.value.length > 100,
      inputValue := f.value }

/-- The server's reply to an upload request. -/
inductive UploadReply where
  | ok (sid : String) (data : ParsedData)
  | err (msg : String)
deriving Repr, DecidableEq

/-- `uploadFile(file)` of `script.js` (PDF app, lines 91-151): reject files
over 5 MB, then non-PDF MIME types, each with an error toast and no request;
otherwise send the upload request and either store the session and generate
the edit form, or toast the server's error. -/
def uploadFile (st : ClientState) (file : FileInfo) (reply : UploadReply) :
    ClientState :=
  if file.size > 5 * 1024 * 1024 then
    pushToast st "File size exceeds 5 MB limit" ToastType.error
  else if file.mime ≠ "application/pdf" then
    pushToast st "Only PDF files are allowed" ToastType.error
  else
    let st := { st with requests := st.requests ++ ["upload"] }
    match reply with
    | UploadReply.ok sid data =>
      let st := { st with
        sessionId := some sid,
        parsedData := some data,
        currentFields := data.fields,
        currentImages := data.images,
        editFormEntries := generateEditFormEntries data.fields,
        activeSection := UiSection.edit }
      pushToast st "Resume parsed successfully!" ToastType.success
    | UploadReply.err msg => pushToast st msg ToastType.error

/-- `handleDrop(event)` of `script.js` (lines 76-86): only a dropped file with
MIME type `application/pdf` reaches `uploadFile`; anything else (including no
file) gets an error toast. -/
def handleDrop (st : ClientState) (dropped : Option FileInfo)
    (reply : UploadReply) : ClientState :=
  match dropped with
  | some f =>
    if f.mime = "application/pdf" then uploadFile st f reply
    else pushToast st "Please upload a PDF file" ToastType.error
  | none => pushToast st "Please upload a PDF file" ToastType.error

/-- `showPreview()` of `script.js` (lines 241-286): posts the current fields,
then either shows the returned warnings and switches to the preview section,
or toasts the error.  The field arrays and session data are never written. -/
def showPreviewClient (st : ClientState)
    (reply : Except String (List String)) : ClientState :=
  let st := { st with requests := st.requests ++ ["preview"] }
  match reply with
  | Except.ok warns =>
    { st with warningsShown := warns, activeSection := UiSection.preview }
  | Except.error msg => pushToast st msg ToastType.error

/-- `resetUpload()` of `script.js` (lines 388-415): posts clear-session when a
session exists (any failure of that request is caught and only logged), then
unconditionally resets all local state and returns to the upload section. -/
def resetUpload (st : ClientState) (_clearFails : Bool) : ClientState :=
  let st1 :=
    if st.sessionId.isSome then
      { st with requests := st.requests ++ ["clear-session"] }
    else st
  pushToast
    { st1 with
      sessionId := none,
      parsedData := none,
      currentFields := [],
      currentImages := [],
      fileInputValue := "",
      editFormEntries := [],
      activeSection := UiSection.upload }
    "Ready for new upload" ToastType.success

/-! ## Helper lemmas -/

/-- Every member of a line group comes from the input list. -/
lemma groupLines_mem {tol : Nat} :
    ∀ (l : List OcrBox), ∀ p ∈ groupLines tol l,
      p.1 ∈ l ∧ ∀ b ∈ p.2, b ∈ l := by
  intro l
  induction l with
  | nil => simp [groupLines]
  | cons b rest ih =>
    intro p hp
    rw [groupLines] at hp
    rcases hgl : groupLines tol rest with _ | ⟨⟨c, g⟩, gs⟩
    · simp only [hgl] at hp
      simp only [List.mem_singleton] at hp
      subst hp
      exact ⟨List.mem_cons_self _ _, by simp⟩
    · simp only [hgl] at hp
      have hq : c ∈ rest ∧ ∀ x ∈ g, x ∈ rest :=
        ih (c, g) (by rw [hgl]; exact List.mem_cons_self _ _)
      have htail : ∀ r ∈ gs, r.1 ∈ rest ∧ ∀ x ∈ r.2, x ∈ rest :=
        fun r hr => ih r (by rw [hgl]; exact List.mem_cons_of_mem _ hr)
      by_cases hcond : natDist b.y c.y ≤ tol
      · rw [if_pos hcond] at hp
        rcases List.mem_cons.mp hp with rfl | hp2
        · refine ⟨List.mem_cons_self _ _, fun x hx => ?_⟩
          rcases List.mem_cons.mp hx with rfl | hx2
          · exact List.mem_cons_of_mem _ hq.1
          · exact List.mem_cons_of_mem _ (hq.2 x hx2)
        · have := htail p hp2
          exact ⟨List.mem_cons_of_mem _ this.1,
            fun x hx => List.mem_cons_of_mem _ (this.2 x hx)⟩
      · rw [if_neg hcond] at hp
        rcases List.mem_cons.mp hp with rfl | hp2
        · exact ⟨List.mem_cons_self _ _, by simp⟩
        · rcases List.mem_cons.mp hp2 with rfl | hp3
          · exact ⟨List.mem_cons_of_mem _ hq.1,
              fun x hx => List.mem_cons_of_mem _ (hq.2 x hx)⟩
          · have := htail p hp3
            exact ⟨List.mem_cons_of_mem _ this.1,
              fun x hx => List.mem_cons_of_mem _ (this.2 x hx)⟩

/-- Folding a minimum never exceeds the initial value. -/
lemma foldl_min_conf_le (t : List OcrBox) :
    ∀ a : Nat, t.foldl (fun a b => min a b.conf) a ≤ a := by
  induction t with
  | nil => intro a; simp
  | cons b rest ih =>
    intro a
    calc rest.foldl (fun a b => min a b.conf) (min a b.conf) ≤ min a b.conf :=
          ih _
      _ ≤ a := Nat.min_le_left _ _

/-- The ids assigned by `assignIds` are consecutive naturals. -/
lemma assignIds_map_id (l : List OcrBox) :
    ∀ i, (assignIds i l).map TextField.id = List.range' i l.length := by
  induction l with
  | nil => intro i; simp [assignIds]
  | cons m ms ih =>
    intro i
    simp [assignIds, mkField, List.range'_succ, ih (i + 1)]

/-- Every field built by `assignIds` is `mkField` of a member of the input. -/
lemma mem_assignIds {f : TextField} :
    ∀ {l : List OcrBox} {i : Nat}, f ∈ assignIds i l →
      ∃ j, ∃ m ∈ l, f = mkField j m := by
  intro l
  induction l with
  | nil => intro i hm; simp [assignIds] at hm
  | cons m ms ih =>
    intro i hm
    rcases List.mem_cons.mp hm with rfl | hm2
    · exact ⟨i, m, List.mem_cons_self _ _, rfl⟩
    · rcases ih hm2 with ⟨j, m', hm', hf⟩
      exact ⟨j, m', List.mem_cons_of_mem _ hm', hf⟩

/-- `setFieldValue` never changes the sequence of field ids. -/
lemma setFieldValue_map_id :
    ∀ (l : List TextField) (i : Nat) (v : String),
      (setFieldValue l i v).map TextField.id = l.map TextField.id := by
  intro l
  induction l with
  | nil => intro i v; rfl
  | cons f fs ih =>
    intro i v
    cases i with
    | zero => simp [setFieldValue]
    | succ i => simp [setFieldValue, ih i v]

/-- Every field after `setFieldValue` is an original field or an original
field with only its value replaced. -/
lemma mem_setFieldValue {f : TextField} :
    ∀ {l : List TextField} {i : Nat} {v : String},
      f ∈ setFieldValue l i v →
        f ∈ l ∨ ∃ g ∈ l, f = { g with value := v } := by
  intro l
  induction l with
  | nil => intro i v hm; simp [setFieldValue] at hm
  | cons g gs ih =>
    intro i v hm
    cases i with
    | zero =>
      rcases List.mem_cons.mp hm with rfl | hm2
      · exact Or.inr ⟨g, List.mem_cons_self _ _, rfl⟩
      · exact Or.inl (List.mem_cons_of_mem _ hm2)
    | succ i =>
      rcases List.mem_cons.mp hm with rfl | hm2
      · exact Or.inl (List.mem_cons_self _ _)
      · rcases ih hm2 with h1 | ⟨g', hg', hf⟩
        · exact Or.inl (List.mem_cons_of_mem _ h1)
        · exact Or.inr ⟨g', List.mem_cons_of_mem _ hg', hf⟩

/-- The boolean field-set check agrees with the spec-level matching
statement. -/
lemma validFieldSet_iff (layout : LayoutModel) (edited : List TextField) :
    validFieldSet layout edited = true ↔ FieldSetMatches layout edited := by
  unfold validFieldSet FieldSetMatches
  simp only [Bool.and_eq_true, beq_iff_eq, List.all_eq_true, List.any_eq_true,
    List.mem_map]
  constructor
  · rintro ⟨⟨hlen, hcov⟩, hsub⟩
    refine ⟨hlen, fun i => ⟨?_, ?_⟩⟩
    · rintro ⟨f, hf, rfl⟩
      rcases hcov f hf with ⟨e, he, heq⟩
      exact ⟨e, he, heq⟩
    · rintro ⟨e, he, rfl⟩
      rcases hsub e he with ⟨f, hf, heq⟩
      exact ⟨f, hf, heq⟩
  · rintro ⟨hlen, hiff⟩
    refine ⟨⟨hlen, fun f hf => ?_⟩, fun e he => ?_⟩
    · rcases (hiff f.id).mp ⟨f, hf, rfl⟩ with ⟨e, he, heq⟩
      exact ⟨e, he, heq⟩
    · rcases (hiff e.id).mpr ⟨e, he, rfl⟩ with ⟨f, hf, heq⟩
      exact ⟨f, hf, heq⟩

/-- When the layout's ids are unique, a matching edited array cannot contain
a duplicated id. -/
lemma matches_nodup {layout : LayoutModel} {edited : List TextField}
    (hnd : (layout.fields.map TextField.id).Nodup)
    (hm : FieldSetMatches layout edited) :
    (edited.map TextField.id).Nodup := by
  rcases hm with ⟨hlen, hiff⟩
  have hsub : layout.fields.map TextField.id ⊆ edited.map TextField.id :=
    fun i hi => (hiff i).mp hi
  have hsp : List.Subperm (layout.fields.map TextField.id)
      (edited.map TextField.id) :=
    hnd.subperm hsub
  have hle : (edited.map TextField.id).length ≤
      (layout.fields.map TextField.id).length := by
    simp [hlen]
  exact (hsp.perm_of_length_le hle).nodup hnd

/-! ## Concrete demonstration data -/

/-- A fresh client state, as initialized at the top of `script.js`. -/
def initialClient : ClientState :=
  { sessionId := none, parsedData := none, currentFields := [],
    currentImages := [], fileInputValue := "", editFormEntries := [],
    activeSection := UiSection.upload, warningsShown := [], toasts := [],
    requests := [] }

/-- A concrete OCR box with a low confidence score. -/
def demoBoxLow : OcrBox :=
  { text := "john@x.com", x := 10, y := 60, width := 80, height := 12,
    conf := 42 }

/-- A concrete OCR box with a high confidence score. -/
def demoBoxHigh : OcrBox :=
  { text := "John Doe", x := 10, y := 20, width := 60, height := 14,
    conf := 95 }

/-- The field the OCR pipeline extracts from `demoBoxHigh`. -/
def demoField0 : TextField := mkField 0 (mergeGroup demoBoxHigh [])

/-- The field the OCR pipeline extracts from `demoBoxLow`. -/
def demoField1 : TextField := mkField 1 (mergeGroup demoBoxLow [])

/-- A concrete session over the two demo fields. -/
def demoSession : Session :=
  { layout := { fields := [demoField0, demoField1], images := [] },
    sourceFormat := "png" }

/-- A concrete recognition box containing only whitespace. -/
def demoBlankBox : OcrBox :=
  { text := " ", x := 0, y := 0, width := 3, height := 3, conf := 50 }

/-- A concrete empty session. -/
def emptySession : Session :=
  { layout := { fields := [], images := [] }, sourceFormat := "png" }

/-! ## Claims -/

/-- C2: the Style Resolver's resolve operation is total: for every styleHint
input, including unknown or garbage font family names, it returns a
ResolvedStyle whose family is drawn from the fixed renderable table, falling
back to the class-default family exactly when no table entry matches, and it
never fails (it is a total function). -/
theorem resolve_total (h : StyleHint) :
    (resolve h).1.family ∈ knownFamilies ∧
    (resolve h).1.family = ((lookupExact h.family.toLower).getD
      (defaultFamily (classifyFamily h.family.toLower))) ∧
    (resolve h).2 = (lookupExact h.family.toLower).isNone := by
  cases hl : lookupExact h.family.toLower with
  | some fam =>
    refine ⟨?_, ?_, ?_⟩ <;> simp [resolve, hl, lookupExact_known hl]
  | none =>
    refine ⟨?_, ?_, ?_⟩ <;> simp [resolve, hl, defaultFamily_known]

/-- C3: regenerating twice from identical session, edited fields and target
format yields outputs with identical text content and identical geometric
placement. -/
theorem regenerate_idempotent (s : Session) (edited : List TextField)
    (fmt : String) (o1 o2 : OutputDocument)
    (h1 : (regenerate s edited fmt).1 = Except.ok o1)
    (h2 : (regenerate s edited fmt).1 = Except.ok o2) :
    outputText o1 = outputText o2 ∧
    outputPlacement o1 = outputPlacement o2 := by
  rw [h1] at h2
  injection h2 with h
  subst h
  exact ⟨rfl, rfl⟩

/-- Witness for C3 at a concrete empty session and the "png" target. -/
theorem regenerate_idempotent_witness :
    outputText { format := "png", placed := [], images := [] } =
      outputText { format := "png", placed := [], images := [] } ∧
    outputPlacement { format := "png", placed := [], images := [] } =
      outputPlacement { format := "png", placed := [], images := [] } :=
  regenerate_idempotent emptySession [] "png"
    { format := "png", placed := [], images := [] }
    { format := "png", placed := [], images := [] } rfl rfl

/-- C4: preview is pure and read-only: the backend preview operation leaves
the session (and so every field's id, label, value, boundingBox, styleHint
and confidence) unchanged while returning the warning list, and the frontend
`showPreview` leaves the client's field array and session data unchanged. -/
theorem preview_readonly (s : Session) (edited : List TextField)
    (st : ClientState) (reply : Except String (List String)) :
    (previewOp s edited).2 = s ∧
    (previewOp s edited).2.layout.fields = s.layout.fields ∧
    (previewOp s edited).1 = preview s.layout edited ∧
    (showPreviewClient st reply).currentFields = st.currentFields ∧
    (showPreviewClient st reply).sessionId = st.sessionId ∧
    (showPreviewClient st reply).parsedData = st.parsedData := by
  refine ⟨rfl, rfl, rfl, ?_, ?_, ?_⟩ <;> cases reply <;> rfl

/-- C10: resetUpload always resets the local client state to its initial
values and returns to the upload section, independently of whether the
clear-session request fails (the failure is caught and ignored). -/
theorem resetUpload_total (st : ClientState) (b : Bool) :
    (resetUpload st b).sessionId = none ∧
    (resetUpload st b).parsedData = none ∧
    (resetUpload st b).currentFields = [] ∧
    (resetUpload st b).currentImages = [] ∧
    (resetUpload st b).fileInputValue = "" ∧
    (resetUpload st b).editFormEntries = [] ∧
    (resetUpload st b).activeSection = UiSection.upload ∧
    resetUpload st true = resetUpload st false :=
  ⟨rfl, rfl, rfl, rfl, rfl, rfl, rfl, rfl⟩

/-- C9: a file larger than 5*1024*1024 bytes or with a MIME type other than
application/pdf makes uploadFile return after pushing an error toast, with no
network request sent and sessionId and parsedData unchanged; and handleDrop
rejects a dropped non-PDF file with a toast before ever invoking uploadFile. -/
theorem uploadFile_rejects (st : ClientState) (file : FileInfo)
    (reply : UploadReply)
    (hbad : file.size > 5 * 1024 * 1024 ∨ file.mime ≠ "application/pdf") :
    uploadFile st file reply =
      pushToast st
        (if file.size > 5 * 1024 * 1024 then "File size exceeds 5 MB limit"
         else "Only PDF files are allowed") ToastType.error ∧
    (uploadFile st file reply).requests = st.requests ∧
    (uploadFile st file reply).sessionId = st.sessionId ∧
    (uploadFile st file reply).parsedData = st.parsedData ∧
    (file.mime ≠ "application/pdf" →
      handleDrop st (some file) reply =
        pushToast st "Please upload a PDF file" ToastType.error) := by
  have hdrop : file.mime ≠ "application/pdf" →
      handleDrop st (some file) reply =
        pushToast st "Please upload a PDF file" ToastType.error := by
    intro hm
    simp [handleDrop, hm]
  by_cases hs : file.size > 5 * 1024 * 1024
  · have he : uploadFile st file reply =
        pushToast st "File size exceeds 5 MB limit" ToastType.error := by
      simp [uploadFile, hs]
    rw [he, if_pos hs]
    exact ⟨rfl, rfl, rfl, rfl, hdrop⟩
  · have hm : file.mime ≠ "application/pdf" := hbad.resolve_left hs
    have he : uploadFile st file reply =
        pushToast st "Only PDF files are allowed" ToastType.error := by
      simp [uploadFile, hs, hm]
    rw [he, if_neg hs]
    exact ⟨rfl, rfl, rfl, rfl, hdrop⟩

/-- Witness for C9 at a concrete non-PDF file on a fresh client. -/
theorem uploadFile_rejects_witness :
    uploadFile initialClient { size := 100, mime := "image/png" }
        (UploadReply.err "x") =
      pushToast initialClient
        (if (100 : Nat) > 5 * 1024 * 1024 then "File size exceeds 5 MB limit"
         else "Only PDF files are allowed") ToastType.error ∧
    (uploadFile initialClient { size := 100, mime := "image/png" }
        (UploadReply.err "x")).requests = initialClient.requests ∧
    (uploadFile initialClient { size := 100, mime := "image/png" }
        (UploadReply.err "x")).sessionId = initialClient.sessionId ∧
    (uploadFile initialClient { size := 100, mime := "image/png" }
        (UploadReply.err "x")).parsedData = initialClient.parsedData ∧
    (FileInfo.mime { size := 100, mime := "image/png" } ≠ "application/pdf" →
      handleDrop initialClient (some { size := 100, mime := "image/png" })
          (UploadReply.err "x") =
        pushToast initialClient "Please upload a PDF file" ToastType.error) :=
  uploadFile_rejects initialClient { size := 100, mime := "image/png" }
    (UploadReply.err "x") (Or.inr (by decide))

/-- C1: regenerate's validation succeeds exactly when the edited field array's
length and id set equal the session layout's field set; any mismatch (missing,
added, or — the layout's ids being unique — duplicated id) yields
InvalidFieldSetError; the session is unchanged by any call, and a subsequent
call with a correct field set succeeds. -/
theorem regenerate_fieldset (s : Session) (edited good : List TextField)
    (fmt : String)
    (hnd : (s.layout.fields.map TextField.id).Nodup)
    (hfmt : supportedTargets.contains fmt = true)
    (hgood : FieldSetMatches s.layout good) :
    (regenerate s edited fmt).2 = s ∧
    ((regenerate s edited fmt).1 = Except.error RegenError.invalidFieldSet ↔
      ¬ FieldSetMatches s.layout edited) ∧
    (¬ (edited.map TextField.id).Nodup →
      (regenerate s edited fmt).1 = Except.error RegenError.invalidFieldSet) ∧
    (regenerate s good fmt).1 = Except.ok (render s.layout good fmt) := by
  have hsession : ∀ e : List TextField, (regenerate s e fmt).2 = s := by
    intro e
    unfold regenerate
    by_cases hv : validFieldSet s.layout e = true
    · rw [if_pos hv]
      by_cases hf : supportedTargets.contains fmt = true
      · rw [if_pos hf]
      · rw [if_neg hf]
    · rw [if_neg hv]
  have hiff : (regenerate s edited fmt).1 =
      Except.error RegenError.invalidFieldSet ↔
      ¬ FieldSetMatches s.layout edited := by
    by_cases hv : validFieldSet s.layout edited = true
    · have hm := (validFieldSet_iff _ _).mp hv
      unfold regenerate
      rw [if_pos hv, if_pos hfmt]
      simp [hm]
    · have hm : ¬ FieldSetMatches s.layout edited :=
        fun h => hv ((validFieldSet_iff _ _).mpr h)
      unfold regenerate
      rw [if_neg hv]
      simp [hm]
  refine ⟨hsession edited, hiff, ?_, ?_⟩
  · intro hdup
    exact hiff.mpr (fun h => hdup (matches_nodup hnd h))
  · have hvg : validFieldSet s.layout good = true :=
      (validFieldSet_iff _ _).mpr hgood
    unfold regenerate
    rw [if_pos hvg, if_pos hfmt]

/-- Witness for C1: a session with two fields, an edited array missing one
id, and a correct edited array. -/
theorem regenerate_fieldset_witness :
    (regenerate demoSession [demoField0] "png").2 = demoSession ∧
    ((regenerate demoSession [demoField0] "png").1 =
        Except.error RegenError.invalidFieldSet ↔
      ¬ FieldSetMatches demoSession.layout [demoField0]) ∧
    (¬ ([demoField0].map TextField.id).Nodup →
      (regenerate demoSession [demoField0] "png").1 =
        Except.error RegenError.invalidFieldSet) ∧
    (regenerate demoSession [demoField0, demoField1] "png").1 =
      Except.ok (render demoSession.layout [demoField0, demoField1] "png") :=
  regenerate_fieldset demoSession [demoField0] [demoField0, demoField1] "png"
    (by decide) (by decide) ((validFieldSet_iff _ _).mp (by decide))

/-- C6: every OCR-extracted field whose confidence is below the threshold 70
comes with a lowConfidence Warning referencing its id, and the field is still
included and editable: the generated edit form has an input for it carrying
its value. -/
theorem lowConfidence_included (tol : Nat) (boxes : List OcrBox)
    (f : TextField) (c : Nat)
    (hf : f ∈ (extractOcr tol boxes).1.fields)
    (hc : f.confidence = some c) (hlt : c < confThreshold) :
    (∃ w ∈ (extractOcr tol boxes).2,
      w.category = WarningCategory.lowConfidence ∧ w.fieldId = some f.id) ∧
    (∃ entry ∈ generateEditFormEntries (extractOcr tol boxes).1.fields,
      entry.entryId = f.id ∧ entry.inputValue = f.value) := by
  constructor
  · refine ⟨lowConfWarning f, ?_, rfl, rfl⟩
    have hmem : lowConfWarning f ∈
        extractionWarnings ((extractOcr tol boxes).1.fields) := by
      apply List.mem_filterMap.mpr
      refine ⟨f, hf, ?_⟩
      rw [hc]
      simp [hlt]
    have heq : (extractOcr tol boxes).2 =
        extractionWarnings ((extractOcr tol boxes).1.fields) ++
          (if ((extractOcr tol boxes).1.fields).isEmpty
           then [emptyResultWarning] else []) := rfl
    rw [heq]
    exact List.mem_append_left _ hmem
  · exact ⟨_, List.mem_map.mpr ⟨f, hf, rfl⟩, rfl, rfl⟩

/-- Witness for C6 at a concrete two-box document whose second line has
confidence 42. -/
theorem lowConfidence_included_witness :
    (∃ w ∈ (extractOcr 5 [demoBoxHigh, demoBoxLow]).2,
      w.category = WarningCategory.lowConfidence ∧
      w.fieldId = some demoField1.id) ∧
    (∃ entry ∈
        generateEditFormEntries (extractOcr 5 [demoBoxHigh, demoBoxLow]).1.fields,
      entry.entryId = demoField1.id ∧ entry.inputValue = demoField1.value) :=
  lowConfidence_included 5 [demoBoxHigh, demoBoxLow] demoField1 42
    (by decide) rfl (by decide)

/-- C7: a decodable source from which extraction finds zero text fields
yields a successful result with an empty field sequence and exactly one
emptyResult Warning, not an error. -/
theorem extract_empty (tol : Nat) (boxes : List OcrBox)
    (hblank : ∀ b ∈ boxes, isBlank b.text = true) :
    extractDoc tol (some boxes) =
      Except.ok ({ fields := [], images := [] }, [emptyResultWarning]) := by
  have hfil : boxes.filter (fun b => !(isBlank b.text)) = [] := by
    apply List.filter_eq_nil_iff.mpr
    intro b hb
    simp [hblank b hb]
  simp [extractDoc, extractOcr, hfil, groupLines, assignIds,
    extractionWarnings]

/-- Witness for C7 at a concrete whitespace-only document. -/
theorem extract_empty_witness :
    extractDoc 5 (some [demoBlankBox]) =
      Except.ok ({ fields := [], images := [] }, [emptyResultWarning]) :=
  extract_empty 5 [demoBlankBox] (by decide)

/-- C5: for a field extracted with low confidence, preview reports the
lowConfidence warning exactly when the field's current (edited) value still
equals the originally extracted text kept in the session layout. -/
theorem preview_lowconf (layout : LayoutModel) (edited : List TextField)
    (f e : TextField) (c : Nat)
    (hnd : (layout.fields.map TextField.id).Nodup)
    (hf : f ∈ layout.fields)
    (hc : f.confidence = some c) (hlt : c < confThreshold)
    (hfind : edited.find? (fun x => x.id == f.id) = some e) :
    (e.value = f.value ↔
      ∃ w ∈ preview layout edited,
        w.category = WarningCategory.lowConfidence ∧
        w.fieldId = some f.id) := by
  constructor
  · intro hval
    refine ⟨lowConfWarning f, ?_, rfl, rfl⟩
    unfold preview
    apply List.mem_append_right
    apply List.mem_filterMap.mpr
    refine ⟨f, hf, ?_⟩
    rw [hc, hfind]
    simp [hlt, hval]
  · rintro ⟨w, hw, hcat, hfid⟩
    unfold preview at hw
    rcases List.mem_append.mp hw with hw1 | hw2
    · rcases List.mem_filterMap.mp hw1 with ⟨e', _, hsome⟩
      by_cases hr : (resolve e'.styleHint).2 = true
      · rw [if_pos hr] at hsome
        injection hsome with hw'
        rw [← hw'] at hcat
        simp [fontSubWarning] at hcat
      · rw [if_neg hr] at hsome
        exact absurd hsome (by simp)
    · rcases List.mem_filterMap.mp hw2 with ⟨g, hg, hsome0⟩
      rcases hcg : g.confidence with _ | c'
      · rw [hcg] at hsome0
        exact Option.noConfusion hsome0
      · rw [hcg] at hsome0
        have hsome1 : (if c' < confThreshold then
            (match edited.find? (fun x => x.id == g.id) with
             | some e => if (e.value == g.value) = true
                 then some (lowConfWarning g) else none
             | none => none) else none) = some w := hsome0
        by_cases hlt' : c' < confThreshold
        · rw [if_pos hlt'] at hsome1
          rcases hfind' : edited.find? (fun x => x.id == g.id) with _ | e'
          · rw [hfind'] at hsome1
            exact Option.noConfusion hsome1
          · rw [hfind'] at hsome1
            have hsome2 : (if (e'.value == g.value) = true
                then some (lowConfWarning g) else none) = some w := hsome1
            by_cases hveq : (e'.value == g.value) = true
            · rw [if_pos hveq] at hsome2
              injection hsome2 with hw'
              rw [← hw'] at hfid
              have hid : g.id = f.id := by
                simpa [lowConfWarning] using hfid
              have hgf : g = f :=
                List.inj_on_of_nodup_map hnd hg hf hid
              subst hgf
              rw [hfind] at hfind'
              injection hfind' with he'
              subst he'
              exact eq_of_beq hveq
            · rw [if_neg hveq] at hsome2
              exact Option.noConfusion hsome2
        · rw [if_neg hlt'] at hsome1
          exact Option.noConfusion hsome1

/-- Witness for C5 at a concrete layout whose second field has confidence 42
and an edited array with that field's value unchanged. -/
theorem preview_lowconf_witness :
    (demoField1.value = demoField1.value ↔
      ∃ w ∈ preview demoSession.layout [demoField0, demoField1],
        w.category = WarningCategory.lowConfidence ∧
        w.fieldId = some demoField1.id) :=
  preview_lowconf demoSession.layout [demoField0, demoField1]
    demoField1 demoField1 42 (by decide) (by decide) rfl (by decide)
    (by decide)

/-- C8: every TextField produced by extract, and still after any sequence of
edit, preview, and regenerate operations, has non-negative boundingBox
dimensions, a confidence (when present) in [0,100], and an id unique within
the document's field set. -/
theorem extract_invariant (tol : Nat) (boxes : List OcrBox)
    (ops : List SessionOp)
    (hconf : ∀ b ∈ boxes, b.conf ≤ 100) :
    modelInv (ops.foldl applyOp (extractOcr tol boxes).1) := by
  have hbase : modelInv (extractOcr tol boxes).1 := by
    constructor
    · intro f hf
      have hf' : f ∈ assignIds 0
          ((groupLines tol (boxes.filter fun b => !(isBlank b.text))).map
            fun p => mergeGroup p.1 p.2) := hf
      rcases mem_assignIds hf' with ⟨j, m, hm, rfl⟩
      rcases List.mem_map.mp hm with ⟨p, hp, rfl⟩
      have hmem := groupLines_mem _ p hp
      have hhd : p.1 ∈ boxes := List.mem_of_mem_filter hmem.1
      refine ⟨Int.natCast_nonneg _, Int.natCast_nonneg _, ?_⟩
      intro c hcmem
      have hceq : (mergeGroup p.1 p.2).conf = c := by
        simpa [mkField, Option.mem_def] using hcmem
      subst hceq
      calc (mergeGroup p.1 p.2).conf ≤ p.1.conf :=
            foldl_min_conf_le p.2 p.1.conf
        _ ≤ 100 := hconf _ hhd
    · show ((assignIds 0 _).map TextField.id).Nodup
      rw [assignIds_map_id]
      exact List.nodup_range' _ _
  have hpres : ∀ m : LayoutModel, modelInv m →
      ∀ op : SessionOp, modelInv (applyOp m op) := by
    intro m hm op
    cases op with
    | edit i v =>
      constructor
      · intro f hf
        rcases mem_setFieldValue hf with h1 | ⟨g, hg, rfl⟩
        · exact hm.1 f h1
        · exact hm.1 g hg
      · show ((setFieldValue m.fields i v).map TextField.id).Nodup
        rw [setFieldValue_map_id]
        exact hm.2
    | runPreview e => exact hm
    | runRegenerate e fmt => exact hm
  have hfold : ∀ (l : List SessionOp) (m : LayoutModel), modelInv m →
      modelInv (l.foldl applyOp m) := by
    intro l
    induction l with
    | nil => intro m hm; exact hm
    | cons op rest ih => intro m hm; exact ih _ (hpres m hm op)
  exact hfold ops _ hbase

/-- Witness for C8 at a concrete two-box document followed by one edit. -/
theorem extract_invariant_witness :
    modelInv ([SessionOp.edit 1 "fixed"].foldl applyOp
      (extractOcr 5 [demoBoxHigh, demoBoxLow]).1) :=
  extract_invariant 5 [demoBoxHigh, demoBoxLow] [SessionOp.edit 1 "fixed"]
    (by decide)

end RB
